import Mathlib

/-!
Shallow embedding of the OCR attendance-text parsing and overtime-accounting
core of the `woking-time-record` repository.

JavaScript strings are modelled as `String` / `List Char`; JS `number` values
hold integers (`Nat`/`Int`) or exact decimals (`ℚ`) at the points where the
source only ever produces such values.  The wall clock (`new Date()`) is
modelled as an explicit reference-date parameter.
-/

/-- JS `\s` whitespace test (the characters relevant to this code base). -/
def wsChar (c : Char) : Bool :=
  c = ' ' || c = '\t' || c = '\n' || c = '\r' ||
  c = Char.ofNat 11 || c = Char.ofNat 12 || c = Char.ofNat 0xa0 ||
  c = Char.ofNat 0x3000 || c = Char.ofNat 0xfeff

/-- Decimal digit character for `n < 10` (used to model JS number-to-string). -/
def decDigitChar : Nat → Char
  | 0 => '0' | 1 => '1' | 2 => '2' | 3 => '3' | 4 => '4'
  | 5 => '5' | 6 => '6' | 7 => '7' | 8 => '8' | 9 => '9'
  | _ => '*'

/-- Decimal rendering worker; `fuel` bounds the digit count so the recursion
is structural (any `fuel` with `n < 10 ^ fuel` yields the digit string). -/
def natDigitsAux : Nat → Nat → List Char
  | 0, _ => []
  | fuel + 1, n =>
    if n < 10 then [decDigitChar n]
    else natDigitsAux fuel (n / 10) ++ [decDigitChar (n % 10)]

/-- Decimal representation of a natural number, most significant digit first
(models JS template interpolation of a non-negative integer). -/
def natDigits (n : Nat) : List Char := natDigitsAux (n + 1) n

def natStr (n : Nat) : String := String.mk (natDigits n)

/-- `padTwo` of the source: `value.toString().padStart(2, '0')`. -/
def padTwoL (n : Nat) : List Char :=
  if n < 10 then '0' :: natDigits n else natDigits n

def padTwo (n : Nat) : String := String.mk (padTwoL n)

/-- `formatDateYMD` of the source. -/
def formatDateYMD (year month day : Nat) : String :=
  String.mk (natDigits year ++ '-' :: (padTwoL month ++ '-' :: padTwoL day))

/-- JS `Number(...)` on a non-empty all-digit string: decimal value. -/
def digitsVal (cs : List Char) : Nat :=
  cs.foldl (fun a c => a * 10 + (c.toNat - 48)) 0

/-- JS `Number(...)` of a string: `some n` for a non-empty digit string,
`none` for the `NaN` outcome (the only shapes this code ever feeds it). -/
def toNumberOpt (cs : List Char) : Option Nat :=
  if cs ≠ [] && cs.all (·.isDigit) then some (digitsVal cs) else none

/-- The `REPLACEMENTS` confusable-glyph table of the source, as a function. -/
def normalizeChar (c : Char) : Char :=
  if c = 'O' then '0' else if c = 'o' then '0' else
  if c = 'Q' then '0' else if c = 'D' then '0' else
  if c = 'I' then '1' else if c = 'l' then '1' else
  if c = '|' then '1' else if c = '!' then '1' else
  if c = 'S' then '5' else if c = 's' then '5' else
  if c = 'B' then '8' else if c = 'Z' then '2' else c

/-- `normalizeDigits` of the source. -/
def normalizeDigits (cs : List Char) : List Char := cs.map normalizeChar

/-- Character class `[0-2OQDoIl!|SBZ]` (hour position of the time regex). -/
def hourGlyph (c : Char) : Bool :=
  c = '0' || c = '1' || c = '2' ||
  c = 'O' || c = 'Q' || c = 'D' || c = 'o' || c = 'I' || c = 'l' ||
  c = '!' || c = '|' || c = 'S' || c = 'B' || c = 'Z'

/-- Character class `[0-5OQDoIl!|SBZ]` (minute position of the time regex). -/
def minuteGlyph (c : Char) : Bool :=
  c = '0' || c = '1' || c = '2' || c = '3' || c = '4' || c = '5' ||
  c = 'O' || c = 'Q' || c = 'D' || c = 'o' || c = 'I' || c = 'l' ||
  c = '!' || c = '|' || c = 'S' || c = 'B' || c = 'Z'

/-- Character class `[:：.\-]` (time separator). -/
def timeSep (c : Char) : Bool :=
  c = ':' || c = '：' || c = '.' || c = '-'

/-- A `{1,2}` greedy group over character class `p`: try the two-character
take first and fall back to the one-character take (regex backtracking). -/
def try2then1 (p : Char → Bool) (cs : List Char)
    (k : List Char → List Char → Option α) : Option α :=
  match cs with
  | [] => none
  | c1 :: rest =>
    if p c1 then
      match rest with
      | c2 :: rest2 =>
        if p c2 then (k [c1, c2] rest2).orElse (fun _ => k [c1] rest)
        else k [c1] rest
      | [] => k [c1] []
    else none

/-- Attempt the time pattern
`([0-2OQDoIl!|SBZ]{1,2})\s*[:：.\-]\s*([0-5OQDoIl!|SBZ]{1,2})`
at the head of `cs`; on success return the two groups and the remainder. -/
def tryMatchTime (cs : List Char) : Option (List Char × List Char × List Char) :=
  try2then1 hourGlyph cs (fun g1 r1 =>
    match r1.dropWhile wsChar with
    | [] => none
    | s :: r2 =>
      if timeSep s then
        try2then1 minuteGlyph (r2.dropWhile wsChar)
          (fun g2 r3 => some (g1, g2, r3))
      else none)

/-- Global scan of the time regex (`exec` loop): leftmost matches, resuming
after each match.  `fuel` bounds the recursion; each step strictly shortens
the text, so initial fuel equal to the text length never runs out. -/
def scanTimesF : Nat → List Char → List (List Char × List Char)
  | 0, _ => []
  | _ + 1, [] => []
  | f + 1, c :: rest =>
    match tryMatchTime (c :: rest) with
    | some (g1, g2, after) => (g1, g2) :: scanTimesF f after
    | none => scanTimesF f rest

/-- Canonical `HH:mm` rendering pushed by `extractTimes`. -/
def timeStringL (h m : Nat) : List Char := padTwoL h ++ ':' :: padTwoL m

def timeString (h m : Nat) : String := String.mk (timeStringL h m)

/-- The accept-and-format step of the `extractTimes` loop body. -/
def timeMatchValue (g1 g2 : List Char) : Option String :=
  match toNumberOpt (normalizeDigits g1), toNumberOpt (normalizeDigits g2) with
  | some h, some m =>
    if h ≤ 23 && m ≤ 59 then some (timeString h m) else none
  | _, _ => none

/-- `extractTimes` of the source. -/
def extractTimes (text : String) : List String :=
  (scanTimesF text.data.length text.data).filterMap
    (fun p => timeMatchValue p.1 p.2)

/-- Split a character list at every occurrence of `sep`
(models `String.prototype.split` with a single-character separator). -/
def splitOnChar (sep : Char) : List Char → List (List Char)
  | [] => [[]]
  | c :: rest =>
    if c = sep then [] :: splitOnChar sep rest
    else
      match splitOnChar sep rest with
      | [] => [[c]]
      | g :: gs => (c :: g) :: gs

/-- Minutes-since-midnight key of the sort comparator
`a.split(':').map(Number)` → `aH * 60 + aM` (only ever applied to the
canonical `HH:mm` strings produced by `extractTimes`). -/
def keyOf (s : String) : Nat :=
  match splitOnChar ':' s.data with
  | [a, b] => digitsVal a * 60 + digitsVal b
  | _ => 0

/-- The ascending order used by the `uniqueTimes.sort` comparator. -/
def timeLe (a b : String) : Prop := keyOf a ≤ keyOf b

instance : DecidableRel timeLe := fun a b => Nat.decLe (keyOf a) (keyOf b)

instance : IsTotal String timeLe := ⟨fun a b => Nat.le_total (keyOf a) (keyOf b)⟩

instance : IsTrans String timeLe := ⟨fun _ _ _ => Nat.le_trans⟩

/-- Worker for first-occurrence deduplication; `fuel` bounds the recursion
so it stays structural (filtering only shortens the list, so fuel equal to
the list length never runs out). -/
def dedupKF : Nat → List String → List String
  | _, [] => []
  | 0, _ :: _ => []
  | f + 1, a :: rest => a :: dedupKF f (rest.filter (fun b => b ≠ a))

/-- `Array.from(new Set(times))`: deduplicate keeping first occurrences. -/
def dedupKeepFirst (l : List String) : List String := dedupKF l.length l

/-- Reference date standing in for a JS `Date` value (year, month 1-12, day). -/
structure Date3 where
  y : Nat
  m : Nat
  d : Nat
deriving DecidableEq, Repr

/-- First separator class `[年\/\-\.]` of the year-month-day date pattern. -/
def dateSep1 (c : Char) : Bool :=
  c = '年' || c = '/' || c = '-' || c = '.'

/-- Second separator class `[月\/\-\.]` of the year-month-day date pattern. -/
def dateSep2 (c : Char) : Bool :=
  c = '月' || c = '/' || c = '-' || c = '.'

/-- Attempt `(\d{4})[年\/\-\.](\d{1,2})[月\/\-\.](\d{1,2})` at the head. -/
def tryYMD (cs : List Char) : Option (Nat × Nat × Nat) :=
  match cs with
  | c1 :: c2 :: c3 :: c4 :: rest =>
    if c1.isDigit && c2.isDigit && c3.isDigit && c4.isDigit then
      match rest with
      | s1 :: r1 =>
        if dateSep1 s1 then
          try2then1 (·.isDigit) r1 (fun gm r2 =>
            match r2 with
            | s2 :: r3 =>
              if dateSep2 s2 then
                try2then1 (·.isDigit) r3 (fun gd _ =>
                  some (digitsVal [c1, c2, c3, c4], digitsVal gm, digitsVal gd))
              else none
            | [] => none)
        else none
      | [] => none
    else none
  | _ => none

/-- Attempt `(\d{1,2})月(\d{1,2})日` at the head. -/
def tryMD (cs : List Char) : Option (Nat × Nat) :=
  try2then1 (·.isDigit) cs (fun gm r1 =>
    match r1 with
    | '月' :: r2 =>
      try2then1 (·.isDigit) r2 (fun gd r3 =>
        match r3 with
        | '日' :: _ => some (digitsVal gm, digitsVal gd)
        | _ => none)
    | _ => none)

/-- Leftmost-match search: try the matcher at each successive start position
(models non-global `String.prototype.match`). -/
def scanFirst (f : List Char → Option α) : List Char → Option α
  | [] => none
  | c :: rest => (f (c :: rest)).orElse (fun _ => scanFirst f rest)

def dateFallbackWarning : String := "未识别到日期，已使用今天日期。"

def noTimesWarning : String := "未识别到有效打卡时间，请手动输入。"

def oneTimeWarning : String := "只识别到一个时间点，请确认上下班时间。"

/-- `extractDate` of the source: the text is first stripped of all whitespace
(`replace(/\s+/g, '')`); returns the date string and the optional warning. -/
def extractDate (text : String) (fallback : Date3) : String × Option String :=
  let normalized := text.data.filter (fun c => !wsChar c)
  let fb := (formatDateYMD fallback.y fallback.m fallback.d, some dateFallbackWarning)
  let mdBranch :=
    match scanFirst tryMD normalized with
    | some (month, day) =>
      if 1 ≤ month && month ≤ 12 && 1 ≤ day && day ≤ 31 then
        (formatDateYMD fallback.y month day, none)
      else fb
    | none => fb
  match scanFirst tryYMD normalized with
  | some (year, month, day) =>
    if 1 ≤ month && month ≤ 12 && 1 ≤ day && day ≤ 31 then
      (formatDateYMD year month day, none)
    else mdBranch
  | none => mdBranch

structure ParsedDingTalkRecord where
  date : String
  startTime : String
  endTime : String
  times : List String
  isValid : Bool
  warnings : List String
deriving DecidableEq, Repr

/-- `parseDingTalkText` of the source. -/
def parseDingTalkText (text : String) (referenceDate : Date3) : ParsedDingTalkRecord :=
  let ed := extractDate text referenceDate
  let dateWarnings := match ed.2 with | some w => [w] | none => []
  let times := extractTimes text
  let uniqueTimes := List.insertionSort timeLe (dedupKeepFirst times)
  let countWarnings :=
    if uniqueTimes.length = 0 then [noTimesWarning]
    else if uniqueTimes.length = 1 then [oneTimeWarning]
    else []
  let startTime := uniqueTimes.headD ""
  let endTime := if 1 < uniqueTimes.length then uniqueTimes.getLastD "" else ""
  { date := ed.1
    startTime := startTime
    endTime := endTime
    times := uniqueTimes
    isValid := startTime ≠ "" && endTime ≠ ""
    warnings := dateWarnings ++ countWarnings }

/-! ### Arithmetic facts about the decimal rendering -/

theorem decDigitChar_isDigit {n : Nat} (h : n < 10) : (decDigitChar n).isDigit = true := by
  interval_cases n <;> decide

theorem natDigitsAux_isDigit :
    ∀ fuel n, ∀ c ∈ natDigitsAux fuel n, c.isDigit = true := by
  intro fuel
  induction fuel with
  | zero => intro n c hc; simp [natDigitsAux] at hc
  | succ f ih =>
    intro n c hc
    rw [natDigitsAux] at hc
    split at hc
    · next h =>
        simp only [List.mem_singleton] at hc
        exact hc ▸ decDigitChar_isDigit h
    · next h =>
        rw [List.mem_append] at hc
        rcases hc with hc | hc
        · exact ih (n / 10) c hc
        · simp only [List.mem_singleton] at hc
          exact hc ▸ decDigitChar_isDigit (Nat.mod_lt _ (by omega))

theorem natDigits_isDigit (n : Nat) : ∀ c ∈ natDigits n, c.isDigit = true :=
  natDigitsAux_isDigit (n + 1) n

theorem natDigits_ne_nil (n : Nat) : natDigits n ≠ [] := by
  rw [natDigits, natDigitsAux]
  split
  · simp
  · simp

theorem digitsVal_append_singleton (cs : List Char) (c : Char) :
    digitsVal (cs ++ [c]) = digitsVal cs * 10 + (c.toNat - 48) := by
  simp [digitsVal, List.foldl_append]

theorem decDigitChar_toNat {n : Nat} (h : n < 10) : (decDigitChar n).toNat - 48 = n := by
  interval_cases n <;> decide

theorem digitsVal_natDigitsAux :
    ∀ fuel n, n < 10 ^ fuel → digitsVal (natDigitsAux fuel n) = n := by
  intro fuel
  induction fuel with
  | zero =>
    intro n hn
    have : n = 0 := by simpa using hn
    simp [this, natDigitsAux, digitsVal]
  | succ f ih =>
    intro n hn
    rw [natDigitsAux]
    split
    · next h => simp [digitsVal, decDigitChar_toNat h]
    · next h =>
        have hdiv : n / 10 < 10 ^ f := by
          rw [Nat.pow_succ, Nat.mul_comm] at hn
          exact Nat.div_lt_of_lt_mul hn
        rw [digitsVal_append_singleton, ih (n / 10) hdiv,
          decDigitChar_toNat (Nat.mod_lt _ (by omega))]
        omega

theorem lt_ten_pow_succ (n : Nat) : n < 10 ^ (n + 1) :=
  Nat.lt_of_lt_of_le (Nat.lt_two_pow n)
    (Nat.le_trans (Nat.pow_le_pow_left (by omega) n)
      (Nat.pow_le_pow_right (by omega) (by omega)))

theorem digitsVal_natDigits (n : Nat) : digitsVal (natDigits n) = n :=
  digitsVal_natDigitsAux (n + 1) n (lt_ten_pow_succ n)

/-- The decimal rendering does not depend on the fuel, as long as it covers
the digit count. -/
theorem natDigitsAux_fuel_irrel :
    ∀ f1, ∀ n, 0 < f1 → n < 10 ^ f1 → ∀ f2, 0 < f2 → n < 10 ^ f2 →
      natDigitsAux f1 n = natDigitsAux f2 n := by
  intro f1
  induction f1 with
  | zero => intro n h; omega
  | succ g1 ih =>
    intro n _ hn f2 hf2 hn2
    obtain ⟨g2, rfl⟩ : ∃ g2, f2 = g2 + 1 := ⟨f2 - 1, by omega⟩
    rw [natDigitsAux, natDigitsAux]
    by_cases h : n < 10
    · rw [if_pos h, if_pos h]
    · rw [if_neg h, if_neg h]
      have hg1 : 0 < g1 := by
        rcases Nat.eq_zero_or_pos g1 with h0 | h0
        · rw [h0] at hn; simp at hn; omega
        · exact h0
      have hg2 : 0 < g2 := by
        rcases Nat.eq_zero_or_pos g2 with h0 | h0
        · rw [h0] at hn2; simp at hn2; omega
        · exact h0
      have h1 : n / 10 < 10 ^ g1 := by
        rw [Nat.pow_succ, Nat.mul_comm] at hn
        exact Nat.div_lt_of_lt_mul hn
      have h2 : n / 10 < 10 ^ g2 := by
        rw [Nat.pow_succ, Nat.mul_comm] at hn2
        exact Nat.div_lt_of_lt_mul hn2
      rw [ih (n / 10) hg1 h1 g2 hg2 h2]

theorem padTwoL_isDigit (n : Nat) : ∀ c ∈ padTwoL n, c.isDigit = true := by
  intro c hc
  rw [padTwoL] at hc
  split at hc
  · rw [List.mem_cons] at hc
    rcases hc with hc | hc
    · rw [hc]; decide
    · exact natDigits_isDigit n c hc
  · exact natDigits_isDigit n c hc

theorem digitsVal_cons_zero (cs : List Char) :
    digitsVal ('0' :: cs) = digitsVal cs := by
  simp [digitsVal]

theorem digitsVal_padTwoL (n : Nat) : digitsVal (padTwoL n) = n := by
  rw [padTwoL]
  split
  · rw [digitsVal_cons_zero, digitsVal_natDigits]
  · rw [digitsVal_natDigits]

/-! ### `splitOnChar` facts -/

theorem splitOnChar_ne_nil (sep : Char) (cs : List Char) :
    splitOnChar sep cs ≠ [] := by
  induction cs with
  | nil => simp [splitOnChar]
  | cons c rest ih =>
    rw [splitOnChar]
    split
    · simp
    · split
      · simp
      · simp

theorem splitOnChar_of_no_sep (sep : Char) (cs : List Char)
    (h : ∀ c ∈ cs, c ≠ sep) : splitOnChar sep cs = [cs] := by
  induction cs with
  | nil => rfl
  | cons c rest ih =>
    rw [splitOnChar]
    rw [if_neg (h c (by simp))]
    rw [ih (fun x hx => h x (List.mem_cons_of_mem c hx))]

theorem splitOnChar_append (sep : Char) (xs ys : List Char)
    (h : ∀ c ∈ xs, c ≠ sep) :
    splitOnChar sep (xs ++ sep :: ys) = xs :: splitOnChar sep ys := by
  induction xs with
  | nil => simp [splitOnChar]
  | cons c rest ih =>
    rw [List.cons_append, splitOnChar, if_neg (h c (by simp)),
      ih (fun x hx => h x (List.mem_cons_of_mem c hx))]

theorem isDigit_ne_colon {c : Char} (h : c.isDigit = true) : c ≠ ':' := by
  intro he
  rw [he] at h
  exact absurd h (by decide)

/-- The comparator key of a canonical `HH:mm` string is its
minutes-since-midnight value. -/
theorem keyOf_timeString (h m : Nat) : keyOf (timeString h m) = h * 60 + m := by
  have hsplit : splitOnChar ':' (timeStringL h m) = [padTwoL h, padTwoL m] := by
    rw [timeStringL,
      splitOnChar_append ':' (padTwoL h) (padTwoL m)
        (fun c hc => isDigit_ne_colon (padTwoL_isDigit h c hc)),
      splitOnChar_of_no_sep ':' (padTwoL m)
        (fun c hc => isDigit_ne_colon (padTwoL_isDigit m c hc))]
  rw [keyOf, timeString]
  show (match splitOnChar ':' (timeStringL h m) with
    | [a, b] => digitsVal a * 60 + digitsVal b
    | _ => 0) = h * 60 + m
  rw [hsplit]
  simp [digitsVal_padTwoL]

/-! ### Claim theorems: concrete parser behaviour -/

/-- C1: the spec's end-to-end punch example fails on the code.  On
`"2024年3月15日 打卡 O9:OO - l8:OO"` the hour class `[0-2OQDoIl!|SBZ]` cannot
match `O9` or `l8`, so the only regex match is `OO - l` (hours `OO`→00,
minutes `l`→1) and the parser returns the single time `"00:01"`, an empty
end time, `isValid = false` and the single-time warning — not
`times = ["09:00","18:00"]`, `isValid = true`, `warnings = []`. -/
theorem c1_end_to_end_actual (fb : Date3) :
    parseDingTalkText "2024年3月15日 打卡 O9:OO - l8:OO" fb =
      { date := "2024-03-15"
        startTime := "00:01"
        endTime := ""
        times := ["00:01"]
        isValid := false
        warnings := [oneTimeWarning] } := rfl

/-- C2: the time pattern does not accept every real digit.  Its hour class
`[0-2OQDoIl!|SBZ]` has no digits `3`–`9` and its minute class
`[0-5OQDoIl!|SBZ]` has no digits `6`–`9`, so the in-range times `"18:00"`
and `"9:30"` are not matched at all, while `"12:30"` (all characters inside
the classes) is. -/
theorem c2_digit_classes_incomplete :
    hourGlyph '8' = false ∧ hourGlyph '9' = false ∧ hourGlyph '3' = false ∧
    minuteGlyph '9' = false ∧
    extractTimes "18:00" = [] ∧
    extractTimes "9:30" = [] ∧
    extractTimes "12:30" = ["12:30"] := by
  refine ⟨rfl, rfl, rfl, rfl, rfl, rfl, rfl⟩

/-- C10: date extraction checks only `1 ≤ month ≤ 12` and `1 ≤ day ≤ 31`, so
the non-existent calendar date `"2024-02-31"` is returned verbatim for the
text `"2024年2月31日"`, with no date warning (the only warning is the
no-times one, which is independent of the date) for every reference date. -/
theorem c10_no_month_length_validation (fb : Date3) :
    parseDingTalkText "2024年2月31日" fb =
      { date := "2024-02-31"
        startTime := ""
        endTime := ""
        times := []
        isValid := false
        warnings := [noTimesWarning] } := rfl

/-! ### Warning behaviour -/

theorem extractDate_warning_value (text : String) (fb : Date3) :
    (extractDate text fb).2 = none ∨
    (extractDate text fb).2 = some dateFallbackWarning := by
  rw [extractDate]
  rcases h1 : scanFirst tryYMD (text.data.filter (fun c => !wsChar c)) with _ | ymd
  · rcases h2 : scanFirst tryMD (text.data.filter (fun c => !wsChar c)) with _ | md
    · simp
    · simp only []
      split
      · simp
      · simp
  · simp only []
    split
    · simp
    · rcases h2 : scanFirst tryMD (text.data.filter (fun c => !wsChar c)) with _ | md
      · simp
      · simp only []
        split
        · simp
        · simp

theorem extractDate_fallback (text : String) (fb : Date3)
    (h1 : scanFirst tryYMD (text.data.filter (fun c => !wsChar c)) = none)
    (h2 : scanFirst tryMD (text.data.filter (fun c => !wsChar c)) = none) :
    extractDate text fb =
      (formatDateYMD fb.y fb.m fb.d, some dateFallbackWarning) := by
  rw [extractDate]
  rw [h1, h2]

/-- C9: warning generation of `parseDingTalkText`.  The warnings list is the
date-fallback warning (exactly when `extractDate` reports one) followed by
the count warning: the no-valid-punches warning when no distinct time was
extracted, the confirm-start/end warning when exactly one was, and nothing
when two or more were.  Moreover, when neither date pattern matches the
whitespace-stripped input, the returned date is built from the reference
date's own year-month-day and the fallback warning is appended first. -/
theorem c9_warnings (text : String) (fb : Date3) :
    (parseDingTalkText text fb).warnings =
      (if (extractDate text fb).2.isSome then [dateFallbackWarning] else []) ++
      (if (parseDingTalkText text fb).times.length = 0 then [noTimesWarning]
       else if (parseDingTalkText text fb).times.length = 1 then [oneTimeWarning]
       else []) ∧
    (scanFirst tryYMD (text.data.filter (fun c => !wsChar c)) = none →
     scanFirst tryMD (text.data.filter (fun c => !wsChar c)) = none →
     (parseDingTalkText text fb).date = formatDateYMD fb.y fb.m fb.d ∧
     dateFallbackWarning ∈ (parseDingTalkText text fb).warnings) := by
  constructor
  · rcases extractDate_warning_value text fb with hw | hw <;>
      simp [parseDingTalkText, hw]
  · intro h1 h2
    have hfb := extractDate_fallback text fb h1 h2
    constructor
    · simp [parseDingTalkText, hfb]
    · simp [parseDingTalkText, hfb]

/-- Witness for `c9_warnings`: for the dateless, timeless text `"hello"` and
reference date 2024-03-15, the result date is `"2024-03-15"` and the
warnings are exactly the fallback warning followed by the no-times one. -/
theorem c9_warnings_witness :
    (parseDingTalkText "hello" ⟨2024, 3, 15⟩).date = "2024-03-15" ∧
    dateFallbackWarning ∈ (parseDingTalkText "hello" ⟨2024, 3, 15⟩).warnings := by
  have h := (c9_warnings "hello" ⟨2024, 3, 15⟩).2 (by decide) (by decide)
  exact ⟨h.1.trans (by decide), h.2⟩

/-! ### Structural invariants of the extracted time list -/

theorem timeMatchValue_eq_some {g1 g2 : List Char} {s : String}
    (hp : timeMatchValue g1 g2 = some s) :
    ∃ h m, h ≤ 23 ∧ m ≤ 59 ∧ s = timeString h m := by
  rw [timeMatchValue] at hp
  rcases hh : toNumberOpt (normalizeDigits g1) with _ | h <;> rw [hh] at hp
  · exact Option.noConfusion hp
  · rcases hm : toNumberOpt (normalizeDigits g2) with _ | m <;> rw [hm] at hp
    · exact Option.noConfusion hp
    · have hp2 : (if (decide (h ≤ 23) && decide (m ≤ 59)) = true
          then some (timeString h m) else none) = some s := hp
      by_cases hc : (decide (h ≤ 23) && decide (m ≤ 59)) = true
      · rw [if_pos hc] at hp2
        rw [Bool.and_eq_true, decide_eq_true_eq, decide_eq_true_eq] at hc
        exact ⟨h, m, hc.1, hc.2, (Option.some_inj.mp hp2).symm⟩
      · rw [if_neg hc] at hp2
        exact Option.noConfusion hp2

theorem extractTimes_canonical {text s : String}
    (hs : s ∈ extractTimes text) :
    ∃ h m, h ≤ 23 ∧ m ≤ 59 ∧ s = timeString h m := by
  rw [extractTimes, List.mem_filterMap] at hs
  obtain ⟨p, _, hp⟩ := hs
  exact timeMatchValue_eq_some hp

theorem dedupKF_subset : ∀ f (l : List String), dedupKF f l ⊆ l := by
  intro f
  induction f with
  | zero => intro l; cases l <;> simp [dedupKF]
  | succ f ih =>
    intro l
    cases l with
    | nil => simp [dedupKF]
    | cons a rest =>
      rw [dedupKF]
      intro x hx
      rcases List.mem_cons.mp hx with h | h
      · exact h ▸ List.mem_cons_self a rest
      · exact List.mem_cons_of_mem a (List.mem_of_mem_filter (ih _ h))

theorem dedupKF_nodup : ∀ f (l : List String), (dedupKF f l).Nodup := by
  intro f
  induction f with
  | zero => intro l; cases l <;> simp [dedupKF]
  | succ f ih =>
    intro l
    cases l with
    | nil => simp [dedupKF]
    | cons a rest =>
      rw [dedupKF]
      refine List.nodup_cons.mpr ⟨?_, ih _⟩
      intro hmem
      have hfil : a ∈ rest.filter (fun b => b ≠ a) := dedupKF_subset f _ hmem
      rw [List.mem_filter] at hfil
      exact (by simpa using hfil.2 : a ≠ a) rfl

/-- On a duplicate-free list of canonical `HH:mm` strings, comparator-sorted
implies strictly increasing minute keys. -/
theorem pairwise_key_lt {l : List String}
    (hs : l.Pairwise timeLe) (hn : l.Nodup)
    (hc : ∀ s ∈ l, ∃ h m, h ≤ 23 ∧ m ≤ 59 ∧ s = timeString h m) :
    l.Pairwise (fun a b => keyOf a < keyOf b) := by
  induction l with
  | nil => exact List.Pairwise.nil
  | cons a t ih =>
    rw [List.pairwise_cons] at hs ⊢
    rw [List.nodup_cons] at hn
    refine ⟨?_, ih hs.2 hn.2 (fun s hsm => hc s (List.mem_cons_of_mem a hsm))⟩
    intro b hb
    have hle : keyOf a ≤ keyOf b := hs.1 b hb
    rcases Nat.lt_or_ge (keyOf a) (keyOf b) with hlt | hge
    · exact hlt
    · exfalso
      have heq : keyOf a = keyOf b := Nat.le_antisymm hle hge
      obtain ⟨h1, m1, _, hm1, ha⟩ := hc a (List.mem_cons_self a t)
      obtain ⟨h2, m2, _, hm2, hbv⟩ := hc b (List.mem_cons_of_mem a hb)
      rw [ha, hbv, keyOf_timeString, keyOf_timeString] at heq
      have hpair : h1 = h2 ∧ m1 = m2 := by omega
      apply hn.1
      rw [ha, hpair.1, hpair.2, ← hbv]
      exact hb

/-- C3: invariants of every `parseDingTalkText` result.  `times` is
duplicate-free and strictly ascending by minutes-since-midnight; every
element is a canonical zero-padded `HH:mm` with hour ≤ 23 and minute ≤ 59
(an out-of-range match such as `BB:00`, i.e. 88:00, is dropped, not
clamped); `startTime` is the head of `times` or `""`; `endTime` is the last
element when `times` has at least two elements and `""` otherwise; and
`isValid` holds exactly when both are non-empty. -/
theorem c3_record_invariants (text : String) (fb : Date3) :
    (parseDingTalkText text fb).times.Nodup ∧
    (parseDingTalkText text fb).times.Pairwise (fun a b => keyOf a < keyOf b) ∧
    (∀ s ∈ (parseDingTalkText text fb).times,
      ∃ h m, h ≤ 23 ∧ m ≤ 59 ∧ s = timeString h m) ∧
    (parseDingTalkText text fb).startTime =
      (parseDingTalkText text fb).times.headD "" ∧
    (parseDingTalkText text fb).endTime =
      (if 1 < (parseDingTalkText text fb).times.length
       then (parseDingTalkText text fb).times.getLastD "" else "") ∧
    ((parseDingTalkText text fb).isValid = true ↔
      (parseDingTalkText text fb).startTime ≠ "" ∧
      (parseDingTalkText text fb).endTime ≠ "") ∧
    extractTimes "BB:00" = [] := by
  have htimes : (parseDingTalkText text fb).times =
      List.insertionSort timeLe (dedupKeepFirst (extractTimes text)) := rfl
  have hnodup : (parseDingTalkText text fb).times.Nodup := by
    rw [htimes]
    exact (List.perm_insertionSort timeLe _).nodup_iff.mpr
      (dedupKF_nodup _ _)
  have hcanon : ∀ s ∈ (parseDingTalkText text fb).times,
      ∃ h m, h ≤ 23 ∧ m ≤ 59 ∧ s = timeString h m := by
    intro s hsm
    rw [htimes] at hsm
    exact extractTimes_canonical
      (dedupKF_subset _ _ ((List.perm_insertionSort timeLe _).mem_iff.mp hsm))
  refine ⟨hnodup, ?_, hcanon, rfl, rfl, ?_, rfl⟩
  · exact pairwise_key_lt
      (htimes ▸ List.sorted_insertionSort timeLe (dedupKeepFirst (extractTimes text)))
      hnodup hcanon
  · simp only [parseDingTalkText, Bool.and_eq_true, decide_eq_true_eq]

/-! ### Worked/overtime minute calculators (`timeUtils.ts`) -/

/-- date-fns `parse(s, 'HH:mm', ref)` followed by `differenceInMinutes`
against the same reference day: minutes since midnight of the parsed time
(this code only ever feeds it canonical `HH:mm` strings). -/
def timeToMinutes (s : String) : Nat :=
  match splitOnChar ':' s.data with
  | [a, b] => digitsVal a * 60 + digitsVal b
  | _ => 0

theorem timeToMinutes_eq_keyOf (s : String) : timeToMinutes s = keyOf s := rfl

theorem timeToMinutes_timeString (h m : Nat) :
    timeToMinutes (timeString h m) = h * 60 + m := by
  rw [timeToMinutes_eq_keyOf, keyOf_timeString]

/-- `calculateWorkedMinutes` of the source (`LUNCH_BREAK_MINUTES = 60`). -/
def calculateWorkedMinutes (startTime endTime : String) : Int :=
  let totalMinutes : Int :=
    (timeToMinutes endTime : Int) - (timeToMinutes startTime : Int)
  if totalMinutes > 4 * 60 then totalMinutes - 60 else totalMinutes

/-- The day classification stored on a record: `'workday' | 'holiday'`
(the spec calls the second alternative `restDay`). -/
inductive DayType where
  | workday : DayType
  | holiday : DayType
deriving DecidableEq, Repr

/-- `calculateOvertimeMinutes` of the source. -/
def calculateOvertimeMinutes (workedMinutes : Int) (t : DayType) : Int :=
  match t with
  | .holiday => workedMinutes
  | .workday => max 0 (workedMinutes - 8 * 60)

/-- C4: for same-day `HH:mm` times, `calculateWorkedMinutes` returns the raw
difference `end − start` in minutes — negative when misordered, propagated
as-is — minus a fixed 60-minute lunch deduction exactly when the raw
difference exceeds 240; in particular 09:00→13:30 gives 210, 09:00→12:00
gives 180, and the misordered 10:00→09:00 gives −60. -/
theorem c4_worked_minutes (h1 m1 h2 m2 : Nat) :
    calculateWorkedMinutes (timeString h1 m1) (timeString h2 m2) =
      (if ((h2 : Int) * 60 + m2) - ((h1 : Int) * 60 + m1) > 240
       then ((h2 : Int) * 60 + m2) - ((h1 : Int) * 60 + m1) - 60
       else ((h2 : Int) * 60 + m2) - ((h1 : Int) * 60 + m1)) ∧
    calculateWorkedMinutes "09:00" "13:30" = 210 ∧
    calculateWorkedMinutes "09:00" "12:00" = 180 ∧
    calculateWorkedMinutes "10:00" "09:00" = -60 := by
  refine ⟨?_, by decide, by decide, by decide⟩
  rw [calculateWorkedMinutes, timeToMinutes_timeString, timeToMinutes_timeString]
  have hcast : ((h2 * 60 + m2 : Nat) : Int) - ((h1 * 60 + m1 : Nat) : Int) =
      ((h2 : Int) * 60 + m2) - ((h1 : Int) * 60 + m1) := by push_cast; ring
  rw [hcast]
  norm_num

/-- C5: overtime is the full worked time on a rest day and
`max 0 (worked − 480)` on a workday; in particular
`(600, workday) ↦ 120`, `(300, restDay) ↦ 300`, `(400, workday) ↦ 0`. -/
theorem c5_overtime_minutes (w : Int) :
    calculateOvertimeMinutes w .holiday = w ∧
    calculateOvertimeMinutes w .workday = max 0 (w - 480) ∧
    calculateOvertimeMinutes 600 .workday = 120 ∧
    calculateOvertimeMinutes 300 .holiday = 300 ∧
    calculateOvertimeMinutes 400 .workday = 0 := by
  refine ⟨rfl, by norm_num [calculateOvertimeMinutes], by decide, rfl, by decide⟩

/-! ### Calendar policy (`timeUtils.ts`) -/

/-- The `HOLIDAYS` set of the source (statutory holidays 2024-2026). -/
def HOLIDAYS : List String :=
  ["2024-01-01",
   "2024-02-10", "2024-02-11", "2024-02-12", "2024-02-13", "2024-02-14",
   "2024-02-15", "2024-02-16", "2024-02-17",
   "2024-04-04", "2024-04-05", "2024-04-06",
   "2024-05-01", "2024-05-02", "2024-05-03", "2024-05-04", "2024-05-05",
   "2024-06-08", "2024-06-09", "2024-06-10",
   "2024-09-15", "2024-09-16", "2024-09-17",
   "2024-10-01", "2024-10-02", "2024-10-03", "2024-10-04", "2024-10-05",
   "2024-10-06", "2024-10-07",
   "2025-01-01",
   "2025-01-28", "2025-01-29", "2025-01-30", "2025-01-31", "2025-02-01",
   "2025-02-02", "2025-02-03", "2025-02-04",
   "2025-04-04", "2025-04-05", "2025-04-06",
   "2025-05-01", "2025-05-02", "2025-05-03", "2025-05-04", "2025-05-05",
   "2025-05-31", "2025-06-01", "2025-06-02",
   "2025-10-01", "2025-10-02", "2025-10-03", "2025-10-04", "2025-10-05",
   "2025-10-06", "2025-10-07", "2025-10-08",
   "2026-01-01", "2026-01-02", "2026-01-03",
   "2026-02-17", "2026-02-18", "2026-02-19", "2026-02-20", "2026-02-21",
   "2026-02-22", "2026-02-23",
   "2026-04-05", "2026-04-06", "2026-04-07",
   "2026-05-01", "2026-05-02", "2026-05-03",
   "2026-06-19", "2026-06-20", "2026-06-21",
   "2026-10-01", "2026-10-02", "2026-10-03", "2026-10-04", "2026-10-05",
   "2026-10-06", "2026-10-07", "2026-10-08"]

/-- The `WORKDAYS_OVERRIDE` set of the source (shifted weekend workdays). -/
def WORKDAYS_OVERRIDE : List String :=
  ["2024-02-04", "2024-02-18",
   "2024-04-07",
   "2024-04-28", "2024-05-11",
   "2024-09-14",
   "2024-09-29", "2024-10-12",
   "2025-01-26", "2025-02-08",
   "2025-04-27",
   "2025-09-28", "2025-10-11",
   "2026-01-04",
   "2026-02-14", "2026-02-28",
   "2026-10-10"]

/-- `isHoliday` of the source (`Set.has`). -/
def isHoliday (dateStr : String) : Bool := HOLIDAYS.contains dateStr

/-- `isWorkdayOverride` of the source. -/
def isWorkdayOverride (dateStr : String) : Bool :=
  WORKDAYS_OVERRIDE.contains dateStr

/-- Days since civil epoch 0000-03-01 for a proleptic Gregorian date
(standard civil-from-days arithmetic; `y ≥ 1`, `1 ≤ m ≤ 12`). -/
def daysFromCivil (y m d : Nat) : Nat :=
  let y2 := if m ≤ 2 then y - 1 else y
  let era := y2 / 400
  let yoe := y2 % 400
  let mp := (m + 9) % 12
  let doy := (153 * mp + 2) / 5 + d - 1
  let doe := yoe * 365 + yoe / 4 - yoe / 100 + doy
  era * 146097 + doe

/-- JS `Date.prototype.getDay`: 0 = Sunday … 6 = Saturday. -/
def dayOfWeekYMD (y m d : Nat) : Nat := (daysFromCivil y m d + 3) % 7

/-- Leap-year rule used by the JS `Date` calendar. -/
def isLeapYear (y : Nat) : Bool :=
  (y % 4 = 0 && y % 100 ≠ 0) || y % 400 = 0

/-- Number of days of month `m` (1-12) of year `y` (date-fns `endOfMonth`). -/
def daysInMonth (y m : Nat) : Nat :=
  match m with
  | 2 => if isLeapYear y then 29 else 28
  | 4 => 30 | 6 => 30 | 9 => 30 | 11 => 30
  | _ => 31

/-- date-fns `parse(s, 'yyyy-MM-dd', ref)`: the year-month-day triple for a
shape-valid string whose month parser accepts `1 ≤ month ≤ 12` and whose
date parser validates the day against the actual month length (leap years
included); anything else — a malformed string or a nonexistent date such as
`"2024-02-31"` — is the Invalid Date outcome, `none`. -/
def parseYMD (s : String) : Option (Nat × Nat × Nat) :=
  match splitOnChar '-' s.data with
  | [a, b, c] =>
    if a.length = 4 && a.all (·.isDigit) && b.length = 2 && b.all (·.isDigit)
        && c.length = 2 && c.all (·.isDigit) then
      if 1 ≤ digitsVal b && digitsVal b ≤ 12 && 1 ≤ digitsVal c &&
          digitsVal c ≤ daysInMonth (digitsVal a) (digitsVal b) then
        some (digitsVal a, digitsVal b, digitsVal c)
      else none
    else none
  | _ => none

/-- date-fns `isWeekend` of the parsed date: `false` on an Invalid Date
(nonexistent dates included), whose `getDay` is `NaN`. -/
def isWeekendStr (s : String) : Bool :=
  match parseYMD s with
  | some (y, m, d) => dayOfWeekYMD y m d = 0 || dayOfWeekYMD y m d = 6
  | none => false

/-- `isRestDay` of the source. -/
def isRestDay (dateStr : String) : Bool :=
  if isHoliday dateStr then true
  else if isWorkdayOverride dateStr then false
  else isWeekendStr dateStr

theorem natDigits_of_lt10 {n : Nat} (h : n < 10) :
    natDigits n = [decDigitChar n] := by
  rw [natDigits, natDigitsAux, if_pos h]

theorem natDigits_len2 {n : Nat} (h1 : 10 ≤ n) (h2 : n ≤ 99) :
    (natDigits n).length = 2 := by
  have he : natDigits n = natDigitsAux 2 n := by
    rw [natDigits]
    exact natDigitsAux_fuel_irrel (n + 1) n (by omega) (lt_ten_pow_succ n)
      2 (by omega) (by norm_num; omega)
  rw [he, natDigitsAux, if_neg (by omega), natDigitsAux,
    if_pos (by omega : n / 10 < 10)]
  simp

theorem natDigits_len4 {y : Nat} (h1 : 1000 ≤ y) (h2 : y ≤ 9999) :
    (natDigits y).length = 4 := by
  have he : natDigits y = natDigitsAux 4 y := by
    rw [natDigits]
    exact natDigitsAux_fuel_irrel (y + 1) y (by omega) (lt_ten_pow_succ y)
      4 (by omega) (by norm_num; omega)
  rw [he, natDigitsAux, if_neg (by omega), natDigitsAux,
    if_neg (by omega : ¬ y / 10 < 10), natDigitsAux,
    if_neg (by omega : ¬ y / 10 / 10 < 10), natDigitsAux,
    if_pos (by omega : y / 10 / 10 / 10 < 10)]
  simp

theorem padTwoL_len2 {n : Nat} (h : n ≤ 99) : (padTwoL n).length = 2 := by
  rw [padTwoL]
  by_cases hn : n < 10
  · rw [if_pos hn, natDigits_of_lt10 hn]
    rfl
  · rw [if_neg hn]
    exact natDigits_len2 (by omega) h

theorem daysInMonth_le_31 (y m : Nat) : daysInMonth y m ≤ 31 := by
  unfold daysInMonth
  split <;> (try split) <;> omega

theorem isDigit_ne_dash {c : Char} (h : c.isDigit = true) : c ≠ '-' := by
  intro he
  rw [he] at h
  exact absurd h (by decide)

theorem parseYMD_formatDateYMD {y m d : Nat}
    (hy1 : 1000 ≤ y) (hy2 : y ≤ 9999) (hm1 : 1 ≤ m) (hm2 : m ≤ 12)
    (hd1 : 1 ≤ d) (hd2 : d ≤ daysInMonth y m) :
    parseYMD (formatDateYMD y m d) = some (y, m, d) := by
  have hm : m ≤ 99 := by omega
  have hd : d ≤ 99 := by
    have h31 := daysInMonth_le_31 y m
    omega
  have hsplit : splitOnChar '-' (formatDateYMD y m d).data =
      [natDigits y, padTwoL m, padTwoL d] := by
    show splitOnChar '-'
      (natDigits y ++ '-' :: (padTwoL m ++ '-' :: padTwoL d)) = _
    rw [splitOnChar_append '-' (natDigits y) _
        (fun c hc => isDigit_ne_dash (natDigits_isDigit y c hc)),
      splitOnChar_append '-' (padTwoL m) _
        (fun c hc => isDigit_ne_dash (padTwoL_isDigit m c hc)),
      splitOnChar_of_no_sep '-' (padTwoL d)
        (fun c hc => isDigit_ne_dash (padTwoL_isDigit d c hc))]
  rw [parseYMD, hsplit]
  show (if (decide ((natDigits y).length = 4) &&
      (natDigits y).all (·.isDigit) &&
      decide ((padTwoL m).length = 2) && (padTwoL m).all (·.isDigit) &&
      decide ((padTwoL d).length = 2) && (padTwoL d).all (·.isDigit)) = true
    then
      (if (decide (1 ≤ digitsVal (padTwoL m)) &&
          decide (digitsVal (padTwoL m) ≤ 12) &&
          decide (1 ≤ digitsVal (padTwoL d)) &&
          decide (digitsVal (padTwoL d) ≤
            daysInMonth (digitsVal (natDigits y)) (digitsVal (padTwoL m)))) = true
       then some (digitsVal (natDigits y), digitsVal (padTwoL m),
         digitsVal (padTwoL d))
       else none)
    else none) = some (y, m, d)
  have hcond : (decide ((natDigits y).length = 4) &&
      (natDigits y).all (·.isDigit) &&
      decide ((padTwoL m).length = 2) && (padTwoL m).all (·.isDigit) &&
      decide ((padTwoL d).length = 2) && (padTwoL d).all (·.isDigit)) = true := by
    simp only [Bool.and_eq_true, decide_eq_true_eq, List.all_eq_true]
    exact ⟨⟨⟨⟨⟨natDigits_len4 hy1 hy2, fun c hc => natDigits_isDigit y c hc⟩,
      padTwoL_len2 hm⟩, fun c hc => padTwoL_isDigit m c hc⟩,
      padTwoL_len2 hd⟩, fun c hc => padTwoL_isDigit d c hc⟩
  rw [if_pos hcond, digitsVal_natDigits, digitsVal_padTwoL, digitsVal_padTwoL]
  have hcond2 : (decide (1 ≤ m) && decide (m ≤ 12) && decide (1 ≤ d) &&
      decide (d ≤ daysInMonth y m)) = true := by
    simp only [Bool.and_eq_true, decide_eq_true_eq]
    exact ⟨⟨⟨hm1, hm2⟩, hd1⟩, hd2⟩
  rw [if_pos hcond2]

/-- C6: rest-day precedence.  For any date string, a holiday is always a
rest day (holiday wins even over a hypothetical shift override, since the
holiday test is made first); a non-holiday shifted workday is never a rest
day; otherwise, for a canonical `YYYY-MM-DD` string denoting a real
calendar date (month 1-12, day within the month), the answer is exactly
whether the date falls on a Saturday (6) or Sunday (0) — while a
nonexistent date such as `"2024-02-31"` parses to an Invalid Date, whose
weekend test is `false`, so it is not a rest day. -/
theorem c6_rest_day_precedence (s : String) (y m d : Nat)
    (hy1 : 1000 ≤ y) (hy2 : y ≤ 9999) (hm1 : 1 ≤ m) (hm2 : m ≤ 12)
    (hd1 : 1 ≤ d) (hd2 : d ≤ daysInMonth y m) :
    (isHoliday s = true → isRestDay s = true) ∧
    (isHoliday s = false → isWorkdayOverride s = true → isRestDay s = false) ∧
    (isHoliday (formatDateYMD y m d) = false →
     isWorkdayOverride (formatDateYMD y m d) = false →
     (isRestDay (formatDateYMD y m d) = true ↔
       (dayOfWeekYMD y m d = 6 ∨ dayOfWeekYMD y m d = 0))) ∧
    isRestDay "2024-02-31" = false := by
  refine ⟨?_, ?_, ?_, by decide⟩
  · intro h
    rw [isRestDay, if_pos h]
  · intro h1 h2
    rw [isRestDay, if_neg (by simp [h1]), if_pos h2]
  · intro h1 h2
    rw [isRestDay, if_neg (by simp [h1]), if_neg (by simp [h2]),
      isWeekendStr, parseYMD_formatDateYMD hy1 hy2 hm1 hm2 hd1 hd2]
    show ((decide (dayOfWeekYMD y m d = 0) || decide (dayOfWeekYMD y m d = 6))
      = true) ↔ _
    simp only [Bool.or_eq_true, decide_eq_true_eq]
    tauto

/-- Witness for `c6_rest_day_precedence`: 2024-01-01 is a holiday hence a
rest day; 2024-02-04 is a shifted workday hence not a rest day;
2024-03-16 is an ordinary Saturday hence a rest day. -/
theorem c6_rest_day_witness :
    isRestDay "2024-01-01" = true ∧ isRestDay "2024-02-04" = false ∧
    isRestDay "2024-03-16" = true := by
  have h1 := (c6_rest_day_precedence "2024-01-01" 2024 1 1 (by norm_num)
    (by norm_num) (by norm_num) (by norm_num) (by norm_num) (by decide)).1
    (by decide)
  have h2 := (c6_rest_day_precedence "2024-02-04" 2024 2 4 (by norm_num)
    (by norm_num) (by norm_num) (by norm_num) (by norm_num) (by decide)).2.1
    (by decide) (by decide)
  have h3 := (c6_rest_day_precedence "2024-03-16" 2024 3 16 (by norm_num)
    (by norm_num) (by norm_num) (by norm_num) (by norm_num) (by decide)).2.2.1
    (by decide) (by decide)
  have hfmt : formatDateYMD 2024 3 16 = "2024-03-16" := by decide
  rw [hfmt] at h3
  exact ⟨h1, h2, h3.mpr (Or.inl (by decide))⟩

/-! ### Remaining weekends in month (`getRemainingWeekends`) -/

/-- date-fns `isWeekend` on a (valid) year-month-day triple. -/
def isWeekendYMD (y m d : Nat) : Bool :=
  dayOfWeekYMD y m d = 0 || dayOfWeekYMD y m d = 6

/-- date-fns `eachDayOfInterval` over day numbers: the `n` consecutive days
starting at day `lo`. -/
def daysList : Nat → Nat → List Nat
  | _, 0 => []
  | lo, n + 1 => lo :: daysList (lo + 1) n

/-- `getRemainingWeekends` of the source.  The source reads the wall clock
(`startOfDay(new Date())`); it is modelled by the explicit `now` argument.
Only the year and month of `date` are consulted (`isSameMonth`,
`startOfMonth`, `endOfMonth`). -/
def getRemainingWeekends (now date : Date3) : Nat :=
  if now.y = date.y && now.m = date.m then
    ((daysList now.d (daysInMonth date.y date.m + 1 - now.d)).filter
      (fun k => isWeekendYMD date.y date.m k)).length
  else
    ((daysList 1 (daysInMonth date.y date.m)).filter
      (fun k => isWeekendYMD date.y date.m k)).length

theorem length_filter_daysList (p : Nat → Bool) :
    ∀ n lo, ((daysList lo n).filter p).length =
      ((Finset.Ico lo (lo + n)).filter (fun k => p k = true)).card := by
  intro n
  induction n with
  | zero => intro lo; simp [daysList]
  | succ n ih =>
    intro lo
    have hins : Finset.Ico lo (lo + (n + 1)) =
        insert lo (Finset.Ico (lo + 1) (lo + 1 + n)) := by
      ext k
      simp only [Finset.mem_Ico, Finset.mem_insert]
      omega
    rw [show daysList lo (n + 1) = lo :: daysList (lo + 1) n from rfl,
      hins, Finset.filter_insert]
    by_cases hp : p lo = true
    · rw [if_pos hp,
        Finset.card_insert_of_not_mem
          (by simp only [Finset.mem_filter, Finset.mem_Ico]; omega)]
      simp only [List.filter_cons, hp, if_true, List.length_cons, ih]
    · rw [if_neg hp]
      have hplo : p lo = false := by
        cases hpv : p lo
        · rfl
        · exact absurd hpv hp
      simp only [List.filter_cons, hplo, Bool.false_eq_true, if_false, ih]

/-- C7: the remaining-weekend count.  When the reference "now" lies in a
different month than the queried date, the result is the number of plain
weekend days (Saturday/Sunday test only, not `isRestDay`) in the whole
queried month; when it lies in the same month, it is the number of weekend
days from the reference day (inclusive) through the end of the month. -/
theorem c7_remaining_weekends (now date : Date3) :
    getRemainingWeekends now date =
      (if now.y = date.y ∧ now.m = date.m
       then ((Finset.Icc now.d (daysInMonth date.y date.m)).filter
          (fun k => isWeekendYMD date.y date.m k = true)).card
       else ((Finset.Icc 1 (daysInMonth date.y date.m)).filter
          (fun k => isWeekendYMD date.y date.m k = true)).card) := by
  rw [getRemainingWeekends]
  by_cases h : now.y = date.y ∧ now.m = date.m
  · rw [if_pos (by simp [h.1, h.2]), if_pos h, length_filter_daysList]
    congr 1
    ext k
    simp only [Finset.mem_filter, Finset.mem_Ico, Finset.mem_Icc]
    constructor
    · rintro ⟨h1, h2⟩
      exact ⟨by omega, h2⟩
    · rintro ⟨h1, h2⟩
      exact ⟨by omega, h2⟩
  · rw [if_neg (by simpa using h), if_neg h, length_filter_daysList]
    congr 1
    ext k
    simp only [Finset.mem_filter, Finset.mem_Ico, Finset.mem_Icc]
    constructor
    · rintro ⟨h1, h2⟩
      exact ⟨by omega, h2⟩
    · rintro ⟨h1, h2⟩
      exact ⟨by omega, h2⟩

/-! ### Stats-text parser (`parseDingTalkStatsText`) -/

/-- `text.replace(/\s+/g, ' ')`: collapse each whitespace run to one space.
The Boolean argument records whether the previous character was whitespace. -/
def collapseWsAux : List Char → Bool → List Char
  | [], _ => []
  | c :: rest, prevWs =>
    if wsChar c then
      if prevWs then collapseWsAux rest true
      else ' ' :: collapseWsAux rest true
    else c :: collapseWsAux rest false

def collapseWs (cs : List Char) : List Char := collapseWsAux cs false

/-- Match a literal character sequence at the head, returning the rest. -/
def matchLit : List Char → List Char → Option (List Char)
  | [], cs => some cs
  | _ :: _, [] => none
  | p :: ps, c :: cs => if c = p then matchLit ps cs else none

/-- Greedy `\d+` / `\d*`: the leading digit run and the remainder. -/
def spanDigits (cs : List Char) : List Char × List Char :=
  (cs.takeWhile (·.isDigit), cs.dropWhile (·.isDigit))

/-- `parseFloat` on a `\d+(\.\d*)?` match: exact decimal value. -/
def ratOfParts (ipart fpart : List Char) : ℚ :=
  (digitsVal ipart : ℚ) + (digitsVal fpart : ℚ) / (10 : ℚ) ^ fpart.length

def avgLabel : List Char := ['平', '均', '工', '时']

def attendanceLabel : List Char := ['出', '勤', '天', '数']

def restLabel : List Char := ['休', '息', '天', '数']

/-- Attempt `(\d{4})\s*[年]?\s*(\d{1,2})\s*月` at the head. -/
def tryYMStats (cs : List Char) : Option (Nat × Nat) :=
  match cs with
  | c1 :: c2 :: c3 :: c4 :: rest =>
    if c1.isDigit && c2.isDigit && c3.isDigit && c4.isDigit then
      let r1 := rest.dropWhile wsChar
      let r2 := match r1 with | '年' :: r => r | _ => r1
      try2then1 (·.isDigit) (r2.dropWhile wsChar) (fun gm r4 =>
        match r4.dropWhile wsChar with
        | '月' :: _ => some (digitsVal [c1, c2, c3, c4], digitsVal gm)
        | _ => none)
    else none
  | _ => none

/-- Attempt `(\d{1,2})\s*月` at the head. -/
def tryMonthOnly (cs : List Char) : Option Nat :=
  try2then1 (·.isDigit) cs (fun gm r =>
    match r.dropWhile wsChar with
    | '月' :: _ => some (digitsVal gm)
    | _ => none)

/-- Attempt `(\d+\.?\d*)\s*<label>` at the head. -/
def tryNumThenLit (lab : List Char) (cs : List Char) : Option ℚ :=
  let ds := (spanDigits cs).1
  let r1 := (spanDigits cs).2
  if ds = [] then none
  else
    match r1 with
    | '.' :: r2 =>
      match matchLit lab (((spanDigits r2).2).dropWhile wsChar) with
      | some _ => some (ratOfParts ds (spanDigits r2).1)
      | none => none
    | _ =>
      match matchLit lab (r1.dropWhile wsChar) with
      | some _ => some (ratOfParts ds [])
      | none => none

/-- Attempt `<label>\s*(\d+\.?\d*)` at the head. -/
def tryLitThenNum (lab : List Char) (cs : List Char) : Option ℚ :=
  match matchLit lab cs with
  | some r1 =>
    let r2 := r1.dropWhile wsChar
    let ds := (spanDigits r2).1
    if ds = [] then none
    else
      match (spanDigits r2).2 with
      | '.' :: r4 => some (ratOfParts ds (spanDigits r4).1)
      | _ => some (ratOfParts ds [])
  | none => none

/-- Attempt `(\d+)\s*<label>` at the head. -/
def tryNumThenLitNat (lab : List Char) (cs : List Char) : Option Nat :=
  let ds := (spanDigits cs).1
  if ds = [] then none
  else
    match matchLit lab (((spanDigits cs).2).dropWhile wsChar) with
    | some _ => some (digitsVal ds)
    | none => none

/-- Attempt `<label>\s*(\d+)` at the head. -/
def tryLitThenNumNat (lab : List Char) (cs : List Char) : Option Nat :=
  match matchLit lab cs with
  | some r1 =>
    let ds := (spanDigits (r1.dropWhile wsChar)).1
    if ds = [] then none else some (digitsVal ds)
  | none => none

def avgMissingWarning : String := "未识别到平均工时"

def attendanceMissingWarning : String := "未识别到出勤天数"

structure ParsedDingTalkStats where
  year : Nat
  month : Nat
  avgHours : ℚ
  attendanceDays : Nat
  restDays : Nat
  totalHours : ℚ
  workdays : Int
  correctAvgHours : ℚ
  weekendWorkDays : Int
  isValid : Bool
  warnings : List String
deriving DecidableEq, Repr

/-- `parseDingTalkStatsText` of the source.  The wall-clock year/month
defaults (`new Date()`) are modelled by the explicit `now` argument;
`workdaysInMonth` is the externally supplied workday count. -/
def parseDingTalkStatsText (text : String) (workdaysInMonth : Int)
    (now : Date3) : ParsedDingTalkStats :=
  let normalized := collapseWs text.data
  let ym : Nat × Nat :=
    match scanFirst tryYMStats normalized with
    | some p => p
    | none =>
      match scanFirst tryMonthOnly normalized with
      | some mo => (now.y, mo)
      | none => (now.y, now.m)
  let avgHours : ℚ :=
    match scanFirst (tryNumThenLit avgLabel) normalized with
    | some v => v
    | none =>
      match scanFirst (tryLitThenNum avgLabel) normalized with
      | some v => v
      | none => 0
  let attendanceDays : Nat :=
    match scanFirst (tryNumThenLitNat attendanceLabel) normalized with
    | some v => v
    | none =>
      match scanFirst (tryLitThenNumNat attendanceLabel) normalized with
      | some v => v
      | none => 0
  let restDays : Nat :=
    match scanFirst (tryNumThenLitNat restLabel) normalized with
    | some v => v
    | none =>
      match scanFirst (tryLitThenNumNat restLabel) normalized with
      | some v => v
      | none => 0
  let totalHours : ℚ := avgHours * attendanceDays
  let workdays : Int := workdaysInMonth
  let weekendWorkDays : Int := max 0 ((attendanceDays : Int) - workdays)
  let correctAvgHours : ℚ :=
    if workdays > 0 then totalHours / (workdays : ℚ) else 0
  let warnings :=
    (if avgHours = 0 then [avgMissingWarning] else []) ++
    (if attendanceDays = 0 then [attendanceMissingWarning] else [])
  { year := ym.1
    month := ym.2
    avgHours := avgHours
    attendanceDays := attendanceDays
    restDays := restDays
    totalHours := totalHours
    workdays := workdays
    correctAvgHours := correctAvgHours
    weekendWorkDays := weekendWorkDays
    isValid := decide (avgHours > 0) && decide (attendanceDays > 0)
    warnings := warnings }

/-- C8: derived-field identities of every stats parse.  `totalHours` is
`avgHours × attendanceDays`; `correctAvgHours` is `totalHours / workdays`
for a positive workday count and `0` otherwise; `weekendWorkDays` is
`max 0 (attendanceDays − workdays)`; and `isValid` holds exactly when both
`avgHours` and `attendanceDays` are strictly positive. -/
theorem c8_stats_derived_fields (text : String) (workdays : Int) (now : Date3) :
    (parseDingTalkStatsText text workdays now).totalHours =
      (parseDingTalkStatsText text workdays now).avgHours *
        ((parseDingTalkStatsText text workdays now).attendanceDays : ℚ) ∧
    (parseDingTalkStatsText text workdays now).correctAvgHours =
      (if 0 < (parseDingTalkStatsText text workdays now).workdays
       then (parseDingTalkStatsText text workdays now).totalHours /
         (((parseDingTalkStatsText text workdays now).workdays : Int) : ℚ)
       else 0) ∧
    (parseDingTalkStatsText text workdays now).weekendWorkDays =
      max 0 (((parseDingTalkStatsText text workdays now).attendanceDays : Int) -
        (parseDingTalkStatsText text workdays now).workdays) ∧
    ((parseDingTalkStatsText text workdays now).isValid = true ↔
      (0 < (parseDingTalkStatsText text workdays now).avgHours ∧
       0 < (parseDingTalkStatsText text workdays now).attendanceDays)) := by
  refine ⟨rfl, rfl, rfl, ?_⟩
  simp only [parseDingTalkStatsText, Bool.and_eq_true, decide_eq_true_eq]
